import Mathlib

/-!
Verification of the UTXO transaction core (Go package `core`, file
`transaction.go`, plus the wallet helpers it calls).

Shallow embedding conventions:
* Go `[]byte` is `List Nat` (one `Nat` per byte); a nil slice and an empty
  slice are both `[]` (the code only ever observes them through `len` and
  content equality, and `gob`/`fmt` treat a zero-length field as zero).
* Go `int`/`int64` are `Int` (no arithmetic near overflow occurs).
* `math/big.Int` values are `Nat` (ECDSA components are non-negative);
  `big.Int.Bytes` is `natToBytes` (minimal big-endian, `[]` for zero) and
  `big.Int.SetBytes` is `natSetBytes`.
* `log.Panic`, and Go runtime panics, are modelled by `GoResult.panic` with
  the panic message; normal returns by `GoResult.ok`.
* The Transaction field `size atomic.Value` (holding a `common.StorageSize`)
  is `size : Option Nat`: `none` for an empty `atomic.Value`, `some n` for a
  stored `StorageSize(n)`.  All code here is single-threaded and the atomic
  cell is read/written whole, so an `Option` cell is an exact model.
* External libraries (`encoding/gob`, `crypto/sha256`, `crypto/ecdsa`,
  `github.com/ethereum/go-ethereum/rlp`, `fmt`) are parameters, bundled in
  `CryptoLib`, constrained only by their documented contracts:
  `sha256.Sum256` returns 32 bytes, and `ecdsa.Verify` accepts a signature
  produced by `ecdsa.Sign` for the matching public key.  `encoding/gob` and
  `rlp` serialize only exported fields, so their parameters take a
  `TxContent` (the four exported fields), which makes them independent of
  the unexported `size` cache by construction.  `fmt.Sprintf` reflects over
  all fields including the unexported `size` cell, so `fmtHex` takes the
  whole `Transaction`.
-/

namespace Core

/-- Minimal big-endian byte encoding of a natural number, structural-fuel
version (`fuel ≥ n` suffices); mirrors `math/big.Int.Bytes`. -/
def natToBytesGo : Nat → Nat → List Nat
  | 0, _ => []
  | _ + 1, 0 => []
  | fuel + 1, n => natToBytesGo fuel (n / 256) ++ [n % 256]

/-- `big.Int.Bytes`: minimal big-endian bytes, `[]` for zero. -/
def natToBytes (n : Nat) : List Nat :=
  natToBytesGo n n

/-- `big.Int.SetBytes`: interpret big-endian bytes as a natural number. -/
def natSetBytes (b : List Nat) : Nat :=
  b.foldl (fun a x => a * 256 + x) 0

/-- `hex.EncodeToString`, kept as a byte list (two hex digits per byte). -/
def hexEncode (b : List Nat) : List Nat :=
  b.foldr (fun x acc => x / 16 % 16 :: x % 16 :: acc) []

/-- Go `TXInput`: previous transaction id, output index (−1 sentinel for
coinbase), signature and public key (nil modelled as `[]`). -/
structure TXInput where
  Txid : List Nat
  Vout : Int
  Signature : List Nat
  PubKey : List Nat
deriving DecidableEq, Repr

/-- Go `TXOutput`: value and owner public-key hash. -/
structure TXOutput where
  Value : Int
  PubKeyHash : List Nat
deriving DecidableEq, Repr

/-- Go `Transaction`: exported fields `ID`, `Vin`, `Vout`, `Timestamp` and
the unexported lazily-cached `size atomic.Value`. -/
structure Transaction where
  ID : List Nat
  Vin : List TXInput
  Vout : List TXOutput
  Timestamp : Int
  size : Option Nat
deriving DecidableEq, Repr

/-- The four exported fields of a `Transaction` — exactly what `gob` and
`rlp` see, since they skip unexported fields. -/
structure TxContent where
  ID : List Nat
  Vin : List TXInput
  Vout : List TXOutput
  Timestamp : Int
deriving DecidableEq, Repr

/-- Exported-field projection. -/
def Transaction.content (tx : Transaction) : TxContent :=
  ⟨tx.ID, tx.Vin, tx.Vout, tx.Timestamp⟩

/-- The exported content is unaffected by the unexported size cell. -/
@[simp] theorem content_setSize (tx : Transaction) (s2 : Option Nat) :
    ({ tx with size := s2 } : Transaction).content = tx.content := rfl

/-- Outcome of running a Go function: a normal return, or a `log.Panic` /
runtime panic carrying its message. -/
inductive GoResult (α : Type) where
  | ok : α → GoResult α
  | panic : String → GoResult α
deriving DecidableEq, Repr

/-- The message of `log.Panic("ERROR: Previous transaction is not correct")`
in `Sign` and `Verify`. -/
def missingMsg : String := "ERROR: Previous transaction is not correct"

/-- The Go runtime panic raised by indexing a slice out of range. -/
def idxMsg : String := "runtime error: index out of range"

/-- The message of `log.Panic("ERROR: Not enough funds")` in
`NewUTXOTransaction`. -/
def notEnoughMsg : String := "ERROR: Not enough funds"

/-- The external libraries the core calls, with their documented contracts.
`hashPub`, `addrOf` and `decodeAddr` stand for the wallet helpers
`HashPubKey`, `Wallet.GetAddress` and the address→key-hash decoding used by
`TXOutput.Lock`; those live in repository files absent from the sources
(`wallet.go`, `transaction_output.go`) and are modelled from the spec:
the address is a deterministic encoding of the hash of the public key, and
locking an output to an address stores that hash. -/
structure CryptoLib where
  gobEnc : TxContent → List Nat
  sha : TxContent → List Nat
  rlpLen : TxContent → Nat
  fmtHex : Transaction → List Nat
  ecSign : Nat → Nat → List Nat → Nat × Nat
  ecVerify : Nat × Nat → List Nat → Nat × Nat → Bool
  pubOf : Nat → Nat × Nat
  hashPub : List Nat → List Nat
  addrOf : List Nat → List Nat
  decodeAddr : List Nat → List Nat
  sha_len : ∀ c, (sha c).length = 32
  ecSign_correct : ∀ k d m, ecVerify (pubOf d) m (ecSign k d m) = true
  decodeAddr_addrOf : ∀ pk, decodeAddr (addrOf pk) = hashPub pk

/-- `Modelled from the spec:` the wallet's raw public key bytes (`wallet.go`
is absent from the sources).  Per the spec the key is stored in uncompressed
curve-point byte form and verification splits it in half into the two
coordinates, so it is `X.Bytes() ++ Y.Bytes()`. -/
def pubKeyBytes (lib : CryptoLib) (d : Nat) : List Nat :=
  natToBytes (lib.pubOf d).1 ++ natToBytes (lib.pubOf d).2

/-- The zero `Transaction` value a Go map lookup returns for a missing key. -/
def zeroTx : Transaction :=
  ⟨[], [], [], 0, none⟩

/-- `prevTXs map[string]Transaction`, as an association list keyed by the
hex-encoded transaction id. -/
def PrevMap : Type := List (List Nat × Transaction)

/-- `prevTXs[hex.EncodeToString(txid)]` with Go zero-value semantics. -/
def lookupTx (prev : PrevMap) (txid : List Nat) : Transaction :=
  match (List.find? (fun p => p.1 == hexEncode txid) prev) with
  | some p => p.2
  | none => zeroTx

/-- `IsCoinbase`: exactly one input, empty previous id, index −1. -/
def Transaction.IsCoinbase (tx : Transaction) : Bool :=
  match tx.Vin with
  | [vin] => vin.Txid.isEmpty && (vin.Vout == -1)
  | _ => false

/-- `Serialize`: gob encoding of the transaction (exported fields only). -/
def Serialize (lib : CryptoLib) (tx : Transaction) : List Nat :=
  lib.gobEnc tx.content

/-- `Hash`: sha256 of the serialization of a copy whose `ID` is blanked. -/
def Hash (lib : CryptoLib) (tx : Transaction) : List Nat :=
  lib.sha ({ tx with ID := [] } : Transaction).content

/-- `SetSize`: store a size in the atomic cell and return it. -/
def Transaction.SetSize (tx : Transaction) (c : Nat) : Nat × Transaction :=
  (c, { tx with size := some c })

/-- Replace input `i` of the transaction by `f` of it (a write through
`tx.Vin[i]`); out-of-range writes never occur in the mirrored loops. -/
def modifyAt {α : Type} : List α → Nat → (α → α) → List α
  | [], _, _ => []
  | a :: as, 0, f => f a :: as
  | a :: as, n + 1, f => a :: modifyAt as n f

/-- `tx.Vin[i] = f (tx.Vin[i])`. -/
def Transaction.setVin (tx : Transaction) (i : Nat) (f : TXInput → TXInput) :
    Transaction :=
  { tx with Vin := modifyAt tx.Vin i f }

/-- The trimmed input built by `TrimmedCopy`: signature and key cleared. -/
def trimInput (v : TXInput) : TXInput :=
  ⟨v.Txid, v.Vout, [], []⟩

/-- The structural output copy built by `TrimmedCopy`. -/
def copyOutput (o : TXOutput) : TXOutput :=
  ⟨o.Value, o.PubKeyHash⟩

/-- `TrimmedCopy`: returns the trimmed copy, and the receiver after the
side effect `tx.SetSize(uint64(len(tx.Serialize())))` executed after the
copy is taken (so the copy's `size` cell is the pre-call snapshot). -/
def TrimmedCopy (lib : CryptoLib) (tx : Transaction) :
    Transaction × Transaction :=
  (⟨tx.ID, tx.Vin.map trimInput, tx.Vout.map copyOutput, tx.Timestamp, tx.size⟩,
   (tx.SetSize (Serialize lib tx).length).2)

/-- `prevTx.Vout[vin.Vout]` as performed by both loops: `none` means the Go
slice index panics (negative or past the end). -/
def outRef (prev : PrevMap) (vin : TXInput) : Option TXOutput :=
  if vin.Vout < 0 then none
  else ((lookupTx prev vin.Txid).Vout)[vin.Vout.toNat]?

/-- The signing-loop body of `Sign`, iterating over the index range of
`txCopy.Vin`; carries the trimmed copy and the original transaction being
mutated.  The `none` branch of the index lookup is unreachable for the
in-range index lists the callers pass. -/
def signLoop (lib : CryptoLib) (ks : Nat → Nat) (d : Nat) (prev : PrevMap) :
    List Nat → Transaction → Transaction → GoResult Transaction
  | [], _, tx => .ok tx
  | i :: is, txCopy, tx =>
    match txCopy.Vin[i]? with
    | none => signLoop lib ks d prev is txCopy tx
    | some vin =>
      match outRef prev vin with
      | none => .panic idxMsg
      | some out =>
        let txCopy1 := txCopy.setVin i
          (fun v => { v with Signature := [], PubKey := out.PubKeyHash })
        let m := lib.fmtHex txCopy1
        let rs := lib.ecSign (ks i) d m
        let sig := natToBytes rs.1 ++ natToBytes rs.2
        let tx1 := tx.setVin i (fun v => { v with Signature := sig })
        let txCopy2 := txCopy1.setVin i (fun v => { v with PubKey := [] })
        signLoop lib ks d prev is txCopy2 tx1

/-- `Sign`: no-op on coinbase; panics if a referenced previous transaction
is missing (zero-value lookup has nil `ID`); otherwise signs every input of
the trimmed copy, writing each signature back to the original transaction.
`ks` supplies the ECDSA nonce drawn from `rand.Reader` for input `i`. -/
def Sign (lib : CryptoLib) (ks : Nat → Nat) (d : Nat) (tx : Transaction)
    (prev : PrevMap) : GoResult Transaction :=
  if tx.IsCoinbase then .ok tx
  else if tx.Vin.any (fun vin => (lookupTx prev vin.Txid).ID.isEmpty) then
    .panic missingMsg
  else
    let pr := TrimmedCopy lib tx
    signLoop lib ks d prev (List.range pr.1.Vin.length) pr.1 pr.2

/-- The verification-loop body of `Verify`, iterating (like the source) over
the original transaction's inputs while mutating the trimmed copy. -/
def verifyLoop (lib : CryptoLib) (prev : PrevMap) :
    List Nat → Transaction → Transaction → GoResult Bool
  | [], _, _ => .ok true
  | i :: is, tx, txCopy =>
    match tx.Vin[i]? with
    | none => verifyLoop lib prev is tx txCopy
    | some vin =>
      match outRef prev vin with
      | none => .panic idxMsg
      | some out =>
        let txCopy1 := txCopy.setVin i
          (fun v => { v with Signature := [], PubKey := out.PubKeyHash })
        let slen := vin.Signature.length
        let r := natSetBytes (vin.Signature.take (slen / 2))
        let s := natSetBytes (vin.Signature.drop (slen / 2))
        let klen := vin.PubKey.length
        let x := natSetBytes (vin.PubKey.take (klen / 2))
        let y := natSetBytes (vin.PubKey.drop (klen / 2))
        let m := lib.fmtHex txCopy1
        if lib.ecVerify (x, y) m (r, s) = false then .ok false
        else
          verifyLoop lib prev is tx
            (txCopy1.setVin i (fun v => { v with PubKey := [] }))

/-- `Verify`: trivially true on coinbase; panics on a missing reference;
otherwise checks every input's signature against the trimmed copy, short
circuiting to `false`.  (The receiver's `size` side effect of `TrimmedCopy`
does not influence the returned Bool and is dropped here.) -/
def Verify (lib : CryptoLib) (tx : Transaction) (prev : PrevMap) :
    GoResult Bool :=
  if tx.IsCoinbase then .ok true
  else if tx.Vin.any (fun vin => (lookupTx prev vin.Txid).ID.isEmpty) then
    .panic missingMsg
  else
    verifyLoop lib prev (List.range tx.Vin.length) tx (TrimmedCopy lib tx).1

/-- `VeryfyFromToAddress`: true on coinbase; if there is at least one
output, false as soon as some input's public key bytes hex-compare equal to
the first output's owner hash; true otherwise. -/
def VeryfyFromToAddress (tx : Transaction) : Bool :=
  if tx.IsCoinbase then true
  else if 0 < tx.Vout.length then
    !(tx.Vin.any (fun vin =>
      hexEncode vin.PubKey == hexEncode ((tx.Vout.headD ⟨0, []⟩).PubKeyHash)))
  else true

/-- The recompute-and-store path of `Size`. -/
def sizeCompute (lib : CryptoLib) (tx : Transaction) : Nat × Transaction :=
  (lib.rlpLen tx.content, { tx with size := some (lib.rlpLen tx.content) })

/-- `Size`: return the cached value when one was stored and it is non-zero;
otherwise count the bytes of `rlp.Encode` (a second encoding, distinct from
the gob `Serialize`), store that, and return it. -/
def Size (lib : CryptoLib) (tx : Transaction) : Nat × Transaction :=
  match tx.size with
  | some n => if n = 0 then sizeCompute lib tx else (n, tx)
  | none => sizeCompute lib tx

/-- `Modelled from the spec:` `NewTXOutput(value, address)` lives in the
absent `transaction_output.go`; per the spec it builds an output of the
given value locked to the owner hash the address decodes to. -/
def NewTXOutput (lib : CryptoLib) (value : Int) (address : List Nat) :
    TXOutput :=
  ⟨value, lib.decodeAddr address⟩

/-- `NewUTXOTransaction`.  The wallet is the pair `(d, pubKey)`; `acc` and
`validOutputs` are what `UTXOSet.FindSpendableOutputs` (external, spec §4.4)
reported, with the map keys already hex-decoded to raw id bytes; `now` is
`time.Now().Unix()`.  `Modelled from the spec:` the trailing
`UTXOSet.Blockchain.SignTransaction(&tx, wallet.PrivateKey)` (absent
`blockchain.go`) supplies the referenced prior transactions and invokes
`Sign`, so it is modelled as `Sign` against the caller-supplied `prev`. -/
def spendInputs (pubKey : List Nat)
    (validOutputs : List (List Nat × List Int)) : List TXInput :=
  validOutputs.foldr
    (fun p acc2 => p.2.map (fun out => (⟨p.1, out, [], pubKey⟩ : TXInput)) ++ acc2)
    []

/-- The output list built by `NewUTXOTransaction`: one output of `amount`
to the recipient, plus a change output back to the sender's own address
when the accumulated funds exceed the amount. -/
def spendOutputs (lib : CryptoLib) (pubKey : List Nat) (toAddr : List Nat)
    (amount acc : Int) : List TXOutput :=
  if acc > amount then
    [NewTXOutput lib amount toAddr,
      NewTXOutput lib (acc - amount) (lib.addrOf pubKey)]
  else [NewTXOutput lib amount toAddr]

/-- The draft record `NewUTXOTransaction` assembles before signing: inputs
and outputs as above, fresh `StorageSize(0)` cell, then `ID` set from
`Hash` and the size cache set from the serialized length. -/
def spendDraft (lib : CryptoLib) (pubKey : List Nat) (toAddr : List Nat)
    (amount acc : Int) (validOutputs : List (List Nat × List Int))
    (now : Int) : Transaction :=
  let tx0 : Transaction :=
    ⟨[], spendInputs pubKey validOutputs,
      spendOutputs lib pubKey toAddr amount acc, now, some 0⟩
  let tx1 := { tx0 with ID := Hash lib tx0 }
  (tx1.SetSize (Serialize lib tx1).length).2

def NewUTXOTransaction (lib : CryptoLib) (ks : Nat → Nat) (d : Nat)
    (pubKey : List Nat) (toAddr : List Nat) (amount : Int) (acc : Int)
    (validOutputs : List (List Nat × List Int)) (now : Int)
    (prev : PrevMap) : GoResult Transaction :=
  if acc < amount then .panic notEnoughMsg
  else
    Sign lib ks d
      (spendDraft lib pubKey toAddr amount acc validOutputs now) prev

/-! ### Byte-encoding lemmas -/

theorem natSetBytes_append_one (a : List Nat) (x : Nat) :
    natSetBytes (a ++ [x]) = natSetBytes a * 256 + x := by
  simp [natSetBytes, List.foldl_append]

theorem natSetBytes_natToBytesGo :
    ∀ fuel n, n ≤ fuel → natSetBytes (natToBytesGo fuel n) = n := by
  intro fuel
  induction fuel with
  | zero =>
    intro n h
    have hn : n = 0 := Nat.le_zero.mp h
    subst hn
    simp [natToBytesGo, natSetBytes]
  | succ fuel ih =>
    intro n h
    cases n with
    | zero => simp [natToBytesGo, natSetBytes]
    | succ m =>
      have hstep : natToBytesGo (fuel + 1) (m + 1) =
          natToBytesGo fuel ((m + 1) / 256) ++ [(m + 1) % 256] := rfl
      have hlt : (m + 1) / 256 < m + 1 :=
        Nat.div_lt_self (Nat.succ_pos m) (by norm_num)
      rw [hstep, natSetBytes_append_one, ih _ (by omega)]
      have := Nat.div_add_mod (m + 1) 256
      omega

theorem natSetBytes_natToBytes (n : Nat) : natSetBytes (natToBytes n) = n :=
  natSetBytes_natToBytesGo n n (Nat.le_refl n)

theorem take_append_self (a b : List Nat) : (a ++ b).take a.length = a := by
  simp

theorem drop_append_self (a b : List Nat) : (a ++ b).drop a.length = b := by
  simp

/-- Splitting the concatenation of two equal-length component encodings at
half the total length recovers both components exactly. -/
theorem split_half_recovers (a b : List Nat) (h : a.length = b.length) :
    ((a ++ b).take ((a ++ b).length / 2) = a ∧
      (a ++ b).drop ((a ++ b).length / 2) = b) := by
  have hlen : (a ++ b).length = 2 * a.length := by
    simp [List.length_append, ← h]; omega
  have hhalf : (a ++ b).length / 2 = a.length := by omega
  rw [hhalf]
  exact ⟨take_append_self a b, drop_append_self a b⟩

/-! ### `modifyAt` and `setVin` lemmas -/

@[simp] theorem length_modifyAt {α : Type} (f : α → α) :
    ∀ (l : List α) (i : Nat), (modifyAt l i f).length = l.length := by
  intro l
  induction l with
  | nil => intro i; simp [modifyAt]
  | cons a as ih =>
    intro i
    cases i with
    | zero => simp [modifyAt]
    | succ ii => simp [modifyAt, ih]

theorem getElem?_modifyAt {α : Type} (f : α → α) :
    ∀ (l : List α) (i j : Nat),
      (modifyAt l i f)[j]? = if i = j then (l[j]?).map f else l[j]? := by
  intro l
  induction l with
  | nil => intro i j; simp [modifyAt]
  | cons a as ih =>
    intro i j
    cases i with
    | zero =>
      cases j with
      | zero => simp [modifyAt]
      | succ jj => simp [modifyAt]
    | succ ii =>
      cases j with
      | zero => simp [modifyAt]
      | succ jj =>
        simp only [modifyAt, List.getElem?_cons_succ, ih ii jj]
        simp only [show (ii + 1 = jj + 1) ↔ (ii = jj) from by omega]

theorem modifyAt_modifyAt {α : Type} (f g : α → α) :
    ∀ (l : List α) (i : Nat),
      modifyAt (modifyAt l i f) i g = modifyAt l i (fun a => g (f a)) := by
  intro l
  induction l with
  | nil => intro i; simp [modifyAt]
  | cons a as ih =>
    intro i
    cases i with
    | zero => simp [modifyAt]
    | succ ii => simp [modifyAt, ih]

theorem modifyAt_eq_self {α : Type} (f : α → α) :
    ∀ (l : List α) (i : Nat), (∀ a, l[i]? = some a → f a = a) →
      modifyAt l i f = l := by
  intro l
  induction l with
  | nil => intro i _; simp [modifyAt]
  | cons a as ih =>
    intro i h
    cases i with
    | zero =>
      have : f a = a := h a (by simp)
      simp [modifyAt, this]
    | succ ii =>
      have : modifyAt as ii f = as := ih ii (fun b hb => h b (by simpa using hb))
      simp [modifyAt, this]

@[simp] theorem setVin_ID (tx : Transaction) (i : Nat) (f : TXInput → TXInput) :
    (tx.setVin i f).ID = tx.ID := rfl

@[simp] theorem setVin_Vout (tx : Transaction) (i : Nat) (f : TXInput → TXInput) :
    (tx.setVin i f).Vout = tx.Vout := rfl

@[simp] theorem setVin_Timestamp (tx : Transaction) (i : Nat) (f : TXInput → TXInput) :
    (tx.setVin i f).Timestamp = tx.Timestamp := rfl

@[simp] theorem setVin_size (tx : Transaction) (i : Nat) (f : TXInput → TXInput) :
    (tx.setVin i f).size = tx.size := rfl

@[simp] theorem setVin_Vin_length (tx : Transaction) (i : Nat) (f : TXInput → TXInput) :
    (tx.setVin i f).Vin.length = tx.Vin.length := by
  simp [Transaction.setVin]

theorem setVin_Vin_getElem? (tx : Transaction) (i j : Nat) (f : TXInput → TXInput) :
    (tx.setVin i f).Vin[j]? = if i = j then (tx.Vin[j]?).map f else tx.Vin[j]? :=
  getElem?_modifyAt f tx.Vin i j

theorem setVin_setVin (tx : Transaction) (i : Nat) (f g : TXInput → TXInput) :
    (tx.setVin i f).setVin i g = tx.setVin i (fun v => g (f v)) := by
  simp [Transaction.setVin, modifyAt_modifyAt]

theorem setVin_eq_self (tx : Transaction) (i : Nat) (f : TXInput → TXInput)
    (h : ∀ a, tx.Vin[i]? = some a → f a = a) : tx.setVin i f = tx := by
  have : modifyAt tx.Vin i f = tx.Vin := modifyAt_eq_self f tx.Vin i h
  simp [Transaction.setVin, this]

/-- The state the trimmed copy is in at the start of every loop iteration:
all signatures and public keys cleared. -/
def trimmedState (txCopy : Transaction) : Prop :=
  ∀ (i : Nat) (vin : TXInput), txCopy.Vin[i]? = some vin →
    vin.Signature = [] ∧ vin.PubKey = []

/-- Per-iteration reset: substituting the owner hash into input `i` of a
trimmed copy and then clearing it again restores the copy unchanged. -/
theorem setVin_subst_reset (txCopy : Transaction) (i : Nat) (pkh : List Nat)
    (h : trimmedState txCopy) :
    ((txCopy.setVin i (fun v => { v with Signature := [], PubKey := pkh })).setVin
      i (fun v => { v with PubKey := [] })) = txCopy := by
  rw [setVin_setVin]
  apply setVin_eq_self
  intro a ha
  rcases h i a ha with ⟨h1, h2⟩
  cases a
  simp_all

/-! ### Loop characterizations -/

theorem setVin_oob (tx : Transaction) (i : Nat) (f : TXInput → TXInput)
    (h : tx.Vin.length ≤ i) : tx.setVin i f = tx := by
  apply setVin_eq_self
  intro a ha
  rw [List.getElem?_eq_none h] at ha
  exact absurd ha (by simp)

/-- The data string `fmt.Sprintf` produces for input `i` once the referenced
output's owner hash is substituted into the trimmed copy. -/
def sigMsg (lib : CryptoLib) (base : Transaction) (i : Nat) (pkh : List Nat) :
    List Nat :=
  lib.fmtHex (base.setVin i (fun v => { v with Signature := [], PubKey := pkh }))

/-- The signature bytes `Sign` stores into input `i`, as a function of the
trimmed copy `base` the loop runs over. -/
def sigAt (lib : CryptoLib) (ks : Nat → Nat) (d : Nat) (prev : PrevMap)
    (base : Transaction) (i : Nat) : List Nat :=
  match base.Vin[i]? with
  | some vin =>
    match outRef prev vin with
    | some out =>
      let rs := lib.ecSign (ks i) d (sigMsg lib base i out.PubKeyHash)
      natToBytes rs.1 ++ natToBytes rs.2
    | none => []
  | none => []

/-- Write signature `g i` into every input indexed by `is`. -/
def setSigs (g : Nat → List Nat) (is : List Nat) (tx : Transaction) :
    Transaction :=
  is.foldl (fun t i => t.setVin i (fun v => { v with Signature := g i })) tx

@[simp] theorem sig_override (v : TXInput) (a b : List Nat) :
    ({ ({ v with Signature := a } : TXInput) with Signature := b } : TXInput) =
      { v with Signature := b } := rfl

@[simp] theorem setSigs_ID (g : Nat → List Nat) :
    ∀ (is : List Nat) (tx : Transaction), (setSigs g is tx).ID = tx.ID := by
  intro is
  induction is with
  | nil => intro tx; rfl
  | cons i is ih => intro tx; simp [setSigs, List.foldl_cons] at ih ⊢; rw [ih]; rfl

@[simp] theorem setSigs_Vout (g : Nat → List Nat) :
    ∀ (is : List Nat) (tx : Transaction), (setSigs g is tx).Vout = tx.Vout := by
  intro is
  induction is with
  | nil => intro tx; rfl
  | cons i is ih => intro tx; simp [setSigs, List.foldl_cons] at ih ⊢; rw [ih]; rfl

@[simp] theorem setSigs_Timestamp (g : Nat → List Nat) :
    ∀ (is : List Nat) (tx : Transaction),
      (setSigs g is tx).Timestamp = tx.Timestamp := by
  intro is
  induction is with
  | nil => intro tx; rfl
  | cons i is ih => intro tx; simp [setSigs, List.foldl_cons] at ih ⊢; rw [ih]; rfl

@[simp] theorem setSigs_size (g : Nat → List Nat) :
    ∀ (is : List Nat) (tx : Transaction), (setSigs g is tx).size = tx.size := by
  intro is
  induction is with
  | nil => intro tx; rfl
  | cons i is ih => intro tx; simp [setSigs, List.foldl_cons] at ih ⊢; rw [ih]; rfl

@[simp] theorem setSigs_Vin_length (g : Nat → List Nat) :
    ∀ (is : List Nat) (tx : Transaction),
      (setSigs g is tx).Vin.length = tx.Vin.length := by
  intro is
  induction is with
  | nil => intro tx; rfl
  | cons i is ih =>
    intro tx
    simp [setSigs, List.foldl_cons] at ih ⊢
    rw [ih]
    simp

theorem setSigs_Vin_getElem? (g : Nat → List Nat) :
    ∀ (is : List Nat) (tx : Transaction) (j : Nat),
      (setSigs g is tx).Vin[j]? =
        if j ∈ is then (tx.Vin[j]?).map (fun v => { v with Signature := g j })
        else tx.Vin[j]? := by
  intro is
  induction is with
  | nil => intro tx j; simp [setSigs]
  | cons i is ih =>
    intro tx j
    have hstep : setSigs g (i :: is) tx =
        setSigs g is (tx.setVin i (fun v => { v with Signature := g i })) := rfl
    rw [hstep, ih]
    by_cases hj : j ∈ is
    · simp only [hj, if_true, List.mem_cons, or_true, if_true]
      rw [setVin_Vin_getElem?]
      by_cases hij : i = j
      · subst hij
        simp [Option.map_map]
        cases tx.Vin[i]? with
        | none => rfl
        | some v => simp [Function.comp]
      · simp [hij]
    · rw [setVin_Vin_getElem?]
      by_cases hij : i = j
      · subst hij
        simp [hj]
      · have : ¬ j ∈ i :: is := by
          simp [List.mem_cons]
          exact ⟨fun h => hij h.symm, hj⟩
        simp [hij, hj, this]

/-- Closed form of the signing loop: with the trimmed copy in its reset
state and every visited input's reference resolving in range, the loop
returns the carried transaction with `sigAt` written into each visited
input, and the trimmed copy cycles back to its base state each iteration. -/
theorem signLoop_eq (lib : CryptoLib) (ks : Nat → Nat) (d : Nat)
    (prev : PrevMap) :
    ∀ (is : List Nat) (txCopy tx : Transaction), trimmedState txCopy →
      txCopy.Vin.length = tx.Vin.length →
      (∀ i ∈ is, ∀ vin : TXInput, txCopy.Vin[i]? = some vin →
        (outRef prev vin).isSome) →
      signLoop lib ks d prev is txCopy tx =
        .ok (setSigs (sigAt lib ks d prev txCopy) is tx) := by
  intro is
  induction is with
  | nil => intro txCopy tx _ _ _; rfl
  | cons i is ih =>
    intro txCopy tx hts hlen hres
    match hvin : txCopy.Vin[i]? with
    | none =>
      have hoob : tx.Vin.length ≤ i := by
        by_contra hcon
        push_neg at hcon
        have hcon2 : i < txCopy.Vin.length := by omega
        rw [List.getElem?_eq_getElem hcon2] at hvin
        exact absurd hvin (by simp)
      have h1 : signLoop lib ks d prev (i :: is) txCopy tx =
          signLoop lib ks d prev is txCopy tx := by
        simp [signLoop, hvin]
      have h2 : setSigs (sigAt lib ks d prev txCopy) (i :: is) tx =
          setSigs (sigAt lib ks d prev txCopy) is tx := by
        have : tx.setVin i (fun v =>
            { v with Signature := sigAt lib ks d prev txCopy i }) = tx :=
          setVin_oob tx i _ hoob
        simp [setSigs, List.foldl_cons, this]
      rw [h1, h2]
      exact ih txCopy tx hts hlen (fun j hj => hres j (List.mem_cons_of_mem i hj))
    | some vin =>
      have hsome : (outRef prev vin).isSome :=
        hres i (List.mem_cons_self i is) vin hvin
      match hout : outRef prev vin with
      | none => rw [hout] at hsome; exact absurd hsome (by simp)
      | some out =>
        have hreset :
            ((txCopy.setVin i (fun v =>
              { v with Signature := [], PubKey := out.PubKeyHash })).setVin
                i (fun v => { v with PubKey := [] })) = txCopy :=
          setVin_subst_reset txCopy i out.PubKeyHash hts
        have hstep : signLoop lib ks d prev (i :: is) txCopy tx =
            signLoop lib ks d prev is txCopy
              (tx.setVin i (fun v =>
                { v with Signature := sigAt lib ks d prev txCopy i })) := by
          simp only [signLoop, hvin, hout, hreset]
          have hsig : sigAt lib ks d prev txCopy i =
              (fun rs => natToBytes rs.1 ++ natToBytes rs.2)
                (lib.ecSign (ks i) d (sigMsg lib txCopy i out.PubKeyHash)) := by
            simp [sigAt, hvin, hout]
          rw [hsig]
          rfl
        rw [hstep]
        have hlen2 : txCopy.Vin.length =
            (tx.setVin i (fun v =>
              { v with Signature := sigAt lib ks d prev txCopy i })).Vin.length := by
          simp [hlen]
        rw [ih txCopy _ hts hlen2
          (fun j hj => hres j (List.mem_cons_of_mem i hj))]
        rfl

/-- Any panic raised by the signing loop is the slice-index panic. -/
theorem signLoop_panic_idx (lib : CryptoLib) (ks : Nat → Nat) (d : Nat)
    (prev : PrevMap) :
    ∀ (is : List Nat) (txCopy tx : Transaction) (m : String),
      signLoop lib ks d prev is txCopy tx = .panic m → m = idxMsg := by
  intro is
  induction is with
  | nil => intro txCopy tx m h; exact absurd h (by simp [signLoop])
  | cons i is ih =>
    intro txCopy tx m h
    match hvin : txCopy.Vin[i]? with
    | none =>
      simp only [signLoop, hvin] at h
      exact ih _ _ _ h
    | some vin =>
      match hout : outRef prev vin with
      | none =>
        simp only [signLoop, hvin, hout] at h
        simp at h
        exact h.symm
      | some out =>
        simp only [signLoop, hvin, hout] at h
        exact ih _ _ _ h

/-- Any panic raised by the verification loop is the slice-index panic. -/
theorem verifyLoop_panic_idx (lib : CryptoLib) (prev : PrevMap) :
    ∀ (is : List Nat) (tx txCopy : Transaction) (m : String),
      verifyLoop lib prev is tx txCopy = .panic m → m = idxMsg := by
  intro is
  induction is with
  | nil => intro tx txCopy m h; exact absurd h (by simp [verifyLoop])
  | cons i is ih =>
    intro tx txCopy m h
    match hvin : tx.Vin[i]? with
    | none =>
      simp only [verifyLoop, hvin] at h
      exact ih _ _ _ h
    | some vin =>
      match hout : outRef prev vin with
      | none =>
        simp only [verifyLoop, hvin, hout] at h
        simp at h
        exact h.symm
      | some out =>
        simp only [verifyLoop, hvin, hout] at h
        by_cases hv : lib.ecVerify
            (natSetBytes (vin.PubKey.take (vin.PubKey.length / 2)),
              natSetBytes (vin.PubKey.drop (vin.PubKey.length / 2)))
            (lib.fmtHex (txCopy.setVin i (fun v =>
              { v with Signature := [], PubKey := out.PubKeyHash })))
            (natSetBytes (vin.Signature.take (vin.Signature.length / 2)),
              natSetBytes (vin.Signature.drop (vin.Signature.length / 2))) = false
        · simp only [hv, if_true] at h
          exact absurd h (by simp)
        · simp only [hv, if_false] at h
          exact ih _ _ _ h

/-- When every visited input's reference resolves in range, the verify loop
returns a boolean (it can only short-circuit to `false` or finish `true`). -/
theorem verifyLoop_ok (lib : CryptoLib) (prev : PrevMap) :
    ∀ (is : List Nat) (tx txCopy : Transaction),
      (∀ i ∈ is, ∀ vin : TXInput, tx.Vin[i]? = some vin →
        (outRef prev vin).isSome) →
      ∃ b, verifyLoop lib prev is tx txCopy = .ok b := by
  intro is
  induction is with
  | nil => intro tx txCopy _; exact ⟨true, rfl⟩
  | cons i is ih =>
    intro tx txCopy hres
    match hvin : tx.Vin[i]? with
    | none =>
      have hstep : verifyLoop lib prev (i :: is) tx txCopy =
          verifyLoop lib prev is tx txCopy := by
        simp only [verifyLoop, hvin]
      rw [hstep]
      exact ih tx txCopy (fun j hj => hres j (List.mem_cons_of_mem i hj))
    | some vin =>
      have hsome : (outRef prev vin).isSome :=
        hres i (List.mem_cons_self i is) vin hvin
      match hout : outRef prev vin with
      | none => rw [hout] at hsome; exact absurd hsome (by simp)
      | some out =>
        simp only [verifyLoop, hvin, hout]
        by_cases hv : lib.ecVerify
            (natSetBytes (vin.PubKey.take (vin.PubKey.length / 2)),
              natSetBytes (vin.PubKey.drop (vin.PubKey.length / 2)))
            (lib.fmtHex (txCopy.setVin i (fun v =>
              { v with Signature := [], PubKey := out.PubKeyHash })))
            (natSetBytes (vin.Signature.take (vin.Signature.length / 2)),
              natSetBytes (vin.Signature.drop (vin.Signature.length / 2))) = false
        · exact ⟨false, by simp only [hv, if_true]⟩
        · simp only [hv, if_false]
          exact ih tx _ (fun j hj => hres j (List.mem_cons_of_mem i hj))

/-- If every visited input's stored signature and key check out against the
reset-state trimmed copy, the verify loop returns `true`. -/
theorem verifyLoop_true (lib : CryptoLib) (prev : PrevMap) :
    ∀ (is : List Nat) (tx txCopy : Transaction), trimmedState txCopy →
      (∀ i ∈ is, ∀ vin : TXInput, tx.Vin[i]? = some vin →
        ∃ out, outRef prev vin = some out ∧
          lib.ecVerify
            (natSetBytes (vin.PubKey.take (vin.PubKey.length / 2)),
              natSetBytes (vin.PubKey.drop (vin.PubKey.length / 2)))
            (sigMsg lib txCopy i out.PubKeyHash)
            (natSetBytes (vin.Signature.take (vin.Signature.length / 2)),
              natSetBytes (vin.Signature.drop (vin.Signature.length / 2))) = true) →
      verifyLoop lib prev is tx txCopy = .ok true := by
  intro is
  induction is with
  | nil => intro tx txCopy _ _; rfl
  | cons i is ih =>
    intro tx txCopy hts hres
    match hvin : tx.Vin[i]? with
    | none =>
      have hstep : verifyLoop lib prev (i :: is) tx txCopy =
          verifyLoop lib prev is tx txCopy := by
        simp only [verifyLoop, hvin]
      rw [hstep]
      exact ih tx txCopy hts (fun j hj => hres j (List.mem_cons_of_mem i hj))
    | some vin =>
      rcases hres i (List.mem_cons_self i is) vin hvin with ⟨out, hout, hv⟩
      simp only [verifyLoop, hvin, hout]
      have hv' : lib.ecVerify
          (natSetBytes (vin.PubKey.take (vin.PubKey.length / 2)),
            natSetBytes (vin.PubKey.drop (vin.PubKey.length / 2)))
          (lib.fmtHex (txCopy.setVin i (fun v =>
            { v with Signature := [], PubKey := out.PubKeyHash })))
          (natSetBytes (vin.Signature.take (vin.Signature.length / 2)),
            natSetBytes (vin.Signature.drop (vin.Signature.length / 2))) = true := hv
      simp only [hv']
      have hreset :
          ((txCopy.setVin i (fun v =>
            { v with Signature := [], PubKey := out.PubKeyHash })).setVin
              i (fun v => { v with PubKey := [] })) = txCopy :=
        setVin_subst_reset txCopy i out.PubKeyHash hts
      simp only [Bool.true_eq_false, if_false, hreset]
      exact ih tx txCopy hts (fun j hj => hres j (List.mem_cons_of_mem i hj))

/-! ### Top-level `Sign` and `Verify` characterizations -/

@[simp] theorem copyOutput_id (o : TXOutput) : copyOutput o = o := by
  cases o; rfl

@[simp] theorem trimBase_ID (lib : CryptoLib) (tx : Transaction) :
    (TrimmedCopy lib tx).1.ID = tx.ID := rfl

@[simp] theorem trimBase_Vout (lib : CryptoLib) (tx : Transaction) :
    (TrimmedCopy lib tx).1.Vout = tx.Vout := by
  show tx.Vout.map copyOutput = tx.Vout
  rw [show copyOutput = id from rfl]
  exact List.map_id tx.Vout

@[simp] theorem trimBase_Timestamp (lib : CryptoLib) (tx : Transaction) :
    (TrimmedCopy lib tx).1.Timestamp = tx.Timestamp := rfl

@[simp] theorem trimBase_size (lib : CryptoLib) (tx : Transaction) :
    (TrimmedCopy lib tx).1.size = tx.size := rfl

@[simp] theorem trimBase_Vin (lib : CryptoLib) (tx : Transaction) :
    (TrimmedCopy lib tx).1.Vin = tx.Vin.map trimInput := rfl

@[simp] theorem trimSide_eq (lib : CryptoLib) (tx : Transaction) :
    (TrimmedCopy lib tx).2 =
      { tx with size := some (Serialize lib tx).length } := rfl

theorem trimmedState_trimBase (lib : CryptoLib) (tx : Transaction) :
    trimmedState (TrimmedCopy lib tx).1 := by
  intro i vin h
  rw [trimBase_Vin, List.getElem?_map] at h
  match hv : tx.Vin[i]? with
  | none => rw [hv] at h; exact absurd h (by simp)
  | some v =>
    rw [hv] at h
    simp at h
    rw [← h]
    exact ⟨rfl, rfl⟩

@[simp] theorem outRef_trimInput (prev : PrevMap) (vin : TXInput) :
    outRef prev (trimInput vin) = outRef prev vin := rfl

@[simp] theorem outRef_setSig (prev : PrevMap) (vin : TXInput) (s : List Nat) :
    outRef prev { vin with Signature := s } = outRef prev vin := rfl

/-- The transaction `Sign` returns on success: size cache refreshed by
`TrimmedCopy`, and each input's signature set per `sigAt`. -/
def txAfterSign (lib : CryptoLib) (ks : Nat → Nat) (d : Nat) (prev : PrevMap)
    (tx : Transaction) : Transaction :=
  setSigs (sigAt lib ks d prev (TrimmedCopy lib tx).1)
    (List.range tx.Vin.length) (TrimmedCopy lib tx).2

/-- The ECDSA component pair produced while signing input `i`. -/
def rsAt (lib : CryptoLib) (ks : Nat → Nat) (d : Nat) (prev : PrevMap)
    (tx : Transaction) (i : Nat) : Nat × Nat :=
  match (TrimmedCopy lib tx).1.Vin[i]? with
  | some vin =>
    match outRef prev vin with
    | some out =>
      lib.ecSign (ks i) d (sigMsg lib (TrimmedCopy lib tx).1 i out.PubKeyHash)
    | none => (0, 0)
  | none => (0, 0)

theorem sigAt_eq_rsAt (lib : CryptoLib) (ks : Nat → Nat) (d : Nat)
    (prev : PrevMap) (tx : Transaction) (i : Nat) (vin : TXInput)
    (hvin : (TrimmedCopy lib tx).1.Vin[i]? = some vin)
    (out : TXOutput) (hout : outRef prev vin = some out) :
    sigAt lib ks d prev (TrimmedCopy lib tx).1 i =
      natToBytes (rsAt lib ks d prev tx i).1 ++
        natToBytes (rsAt lib ks d prev tx i).2 := by
  simp only [sigAt, rsAt, hvin, hout]

theorem Sign_coinbase (lib : CryptoLib) (ks : Nat → Nat) (d : Nat)
    (tx : Transaction) (prev : PrevMap) (h : tx.IsCoinbase = true) :
    Sign lib ks d tx prev = .ok tx := by
  simp [Sign, h]

theorem Verify_coinbase (lib : CryptoLib) (tx : Transaction) (prev : PrevMap)
    (h : tx.IsCoinbase = true) : Verify lib tx prev = .ok true := by
  simp [Verify, h]

theorem Sign_missing (lib : CryptoLib) (ks : Nat → Nat) (d : Nat)
    (tx : Transaction) (prev : PrevMap) (h1 : tx.IsCoinbase = false)
    (h2 : ∃ vin ∈ tx.Vin, (lookupTx prev vin.Txid).ID = []) :
    Sign lib ks d tx prev = .panic missingMsg := by
  have hany : tx.Vin.any (fun vin => (lookupTx prev vin.Txid).ID.isEmpty) = true := by
    rw [List.any_eq_true]
    rcases h2 with ⟨vin, hmem, hid⟩
    exact ⟨vin, hmem, by simp [hid]⟩
  simp [Sign, h1, hany]

theorem Verify_missing (lib : CryptoLib) (tx : Transaction) (prev : PrevMap)
    (h1 : tx.IsCoinbase = false)
    (h2 : ∃ vin ∈ tx.Vin, (lookupTx prev vin.Txid).ID = []) :
    Verify lib tx prev = .panic missingMsg := by
  have hany : tx.Vin.any (fun vin => (lookupTx prev vin.Txid).ID.isEmpty) = true := by
    rw [List.any_eq_true]
    rcases h2 with ⟨vin, hmem, hid⟩
    exact ⟨vin, hmem, by simp [hid]⟩
  simp [Verify, h1, hany]

theorem any_missing_false (prev : PrevMap) (tx : Transaction)
    (h2 : ∀ vin ∈ tx.Vin, (lookupTx prev vin.Txid).ID ≠ []) :
    tx.Vin.any (fun vin => (lookupTx prev vin.Txid).ID.isEmpty) = false := by
  rw [List.any_eq_false]
  intro vin hmem
  simp [h2 vin hmem]

/-- Closed form of `Sign` on a non-coinbase transaction whose references all
resolve in range. -/
theorem Sign_eq (lib : CryptoLib) (ks : Nat → Nat) (d : Nat)
    (tx : Transaction) (prev : PrevMap) (h1 : tx.IsCoinbase = false)
    (h2 : ∀ vin ∈ tx.Vin, (lookupTx prev vin.Txid).ID ≠ [])
    (h3 : ∀ vin ∈ tx.Vin, (outRef prev vin).isSome) :
    Sign lib ks d tx prev = .ok (txAfterSign lib ks d prev tx) := by
  have hany := any_missing_false prev tx h2
  have hlen : (TrimmedCopy lib tx).1.Vin.length = tx.Vin.length := by simp
  have hres : ∀ i ∈ List.range (TrimmedCopy lib tx).1.Vin.length,
      ∀ vin : TXInput, (TrimmedCopy lib tx).1.Vin[i]? = some vin →
        (outRef prev vin).isSome := by
    intro i _ vin hvin
    rw [trimBase_Vin, List.getElem?_map] at hvin
    match hv : tx.Vin[i]? with
    | none => rw [hv] at hvin; exact absurd hvin (by simp)
    | some v =>
      rw [hv] at hvin
      simp at hvin
      rw [← hvin, outRef_trimInput]
      exact h3 v (List.getElem?_mem hv)
  have hloop := signLoop_eq lib ks d prev
    (List.range (TrimmedCopy lib tx).1.Vin.length) (TrimmedCopy lib tx).1
    (TrimmedCopy lib tx).2 (trimmedState_trimBase lib tx) (by simp) hres
  simp only [Sign, h1, hany, Bool.false_eq_true, if_false]
  rw [hloop]
  rw [txAfterSign, hlen]

@[simp] theorem txAfterSign_ID (lib : CryptoLib) (ks : Nat → Nat) (d : Nat)
    (prev : PrevMap) (tx : Transaction) :
    (txAfterSign lib ks d prev tx).ID = tx.ID := by
  simp [txAfterSign]

@[simp] theorem txAfterSign_Vout (lib : CryptoLib) (ks : Nat → Nat) (d : Nat)
    (prev : PrevMap) (tx : Transaction) :
    (txAfterSign lib ks d prev tx).Vout = tx.Vout := by
  simp [txAfterSign]

@[simp] theorem txAfterSign_Timestamp (lib : CryptoLib) (ks : Nat → Nat)
    (d : Nat) (prev : PrevMap) (tx : Transaction) :
    (txAfterSign lib ks d prev tx).Timestamp = tx.Timestamp := by
  simp [txAfterSign]

@[simp] theorem txAfterSign_size (lib : CryptoLib) (ks : Nat → Nat) (d : Nat)
    (prev : PrevMap) (tx : Transaction) :
    (txAfterSign lib ks d prev tx).size = some (Serialize lib tx).length := by
  simp [txAfterSign]

@[simp] theorem txAfterSign_Vin_length (lib : CryptoLib) (ks : Nat → Nat)
    (d : Nat) (prev : PrevMap) (tx : Transaction) :
    (txAfterSign lib ks d prev tx).Vin.length = tx.Vin.length := by
  simp [txAfterSign]

theorem txAfterSign_Vin_getElem? (lib : CryptoLib) (ks : Nat → Nat) (d : Nat)
    (prev : PrevMap) (tx : Transaction) (j : Nat) :
    (txAfterSign lib ks d prev tx).Vin[j]? =
      (tx.Vin[j]?).map (fun v =>
        { v with Signature := sigAt lib ks d prev (TrimmedCopy lib tx).1 j }) := by
  rw [txAfterSign, setSigs_Vin_getElem?]
  by_cases hj : j ∈ List.range tx.Vin.length
  · simp only [hj, if_true]
    rfl
  · simp only [hj, if_false]
    rw [List.mem_range] at hj
    push_neg at hj
    have h1 : (TrimmedCopy lib tx).2.Vin[j]? = none := by
      apply List.getElem?_eq_none
      simpa using hj
    have h2 : tx.Vin[j]? = none := List.getElem?_eq_none (by simpa using hj)
    rw [h1, h2]
    rfl

theorem txEq (t1 t2 : Transaction) (hID : t1.ID = t2.ID)
    (hVin : t1.Vin = t2.Vin) (hVout : t1.Vout = t2.Vout)
    (hTs : t1.Timestamp = t2.Timestamp) (hsz : t1.size = t2.size) :
    t1 = t2 := by
  cases t1
  cases t2
  simp_all

theorem two_le_shape {α : Type} (l : List α) (h : 2 ≤ l.length) :
    ∃ x y r, l = x :: y :: r := by
  cases l with
  | nil => simp at h
  | cons x xs =>
    cases xs with
    | nil => simp at h
    | cons y r => exact ⟨x, y, r, rfl⟩

/-- `IsCoinbase` only reads input count and each input's `Txid` and `Vout`,
so it agrees on transactions pointwise equal in those. -/
theorem IsCoinbase_congr (t1 t2 : Transaction)
    (hlen : t1.Vin.length = t2.Vin.length)
    (h0 : ∀ v1 v2 : TXInput, t1.Vin[0]? = some v1 → t2.Vin[0]? = some v2 →
      v1.Txid = v2.Txid ∧ v1.Vout = v2.Vout) :
    t1.IsCoinbase = t2.IsCoinbase := by
  cases ht1 : t1.Vin with
  | nil =>
    have h2 : t2.Vin = [] := by
      rw [← List.length_eq_zero, ← hlen, ht1]
      rfl
    simp [Transaction.IsCoinbase, ht1, h2]
  | cons a l =>
    cases l with
    | nil =>
      have h2len : t2.Vin.length = 1 := by rw [← hlen, ht1]; rfl
      rcases List.length_eq_one.mp h2len with ⟨b, hb⟩
      have hv : a.Txid = b.Txid ∧ a.Vout = b.Vout :=
        h0 a b (by rw [ht1]; rfl) (by rw [hb]; rfl)
      simp [Transaction.IsCoinbase, ht1, hb, hv.1, hv.2]
    | cons c l2 =>
      have h2len : 2 ≤ t2.Vin.length := by
        rw [← hlen, ht1]
        simp
      rcases two_le_shape t2.Vin h2len with ⟨x, y, r, hxy⟩
      simp [Transaction.IsCoinbase, ht1, hxy]

theorem IsCoinbase_txAfterSign (lib : CryptoLib) (ks : Nat → Nat) (d : Nat)
    (prev : PrevMap) (tx : Transaction) :
    (txAfterSign lib ks d prev tx).IsCoinbase = tx.IsCoinbase := by
  apply IsCoinbase_congr
  · simp
  · intro v1 v2 hv1 hv2
    rw [txAfterSign_Vin_getElem?, hv2] at hv1
    simp at hv1
    rw [← hv1]
    exact ⟨rfl, rfl⟩

/-- Both trimmed copies — of the unsigned transaction during `Sign` and of
the signed result during `Verify` — coincide, provided the unsigned
transaction's size cache already held its serialized length (which is what
the constructors establish just before signing). -/
theorem trimBase_txAfterSign (lib : CryptoLib) (ks : Nat → Nat) (d : Nat)
    (prev : PrevMap) (tx : Transaction)
    (h7 : tx.size = some (Serialize lib tx).length) :
    (TrimmedCopy lib (txAfterSign lib ks d prev tx)).1 =
      (TrimmedCopy lib tx).1 := by
  apply txEq
  · simp
  · rw [trimBase_Vin, trimBase_Vin]
    apply List.ext_getElem?
    intro j
    rw [List.getElem?_map, List.getElem?_map, txAfterSign_Vin_getElem?]
    cases tx.Vin[j]? with
    | none => rfl
    | some v => rfl
  · simp
  · simp
  · rw [trimBase_size, trimBase_size, txAfterSign_size, h7]

/-- Sign-then-verify round trip, under the two hygiene conditions the byte
format forces (equal-length component encodings) and the size-cache
precondition the constructors establish. -/
theorem roundTrip_verify (lib : CryptoLib) (ks : Nat → Nat) (d : Nat)
    (tx : Transaction) (prev : PrevMap)
    (h1 : tx.IsCoinbase = false)
    (h2 : ∀ vin ∈ tx.Vin, (lookupTx prev vin.Txid).ID ≠ [])
    (h3 : ∀ vin ∈ tx.Vin, (outRef prev vin).isSome)
    (h4 : ∀ vin ∈ tx.Vin, vin.PubKey = pubKeyBytes lib d)
    (h7 : tx.size = some (Serialize lib tx).length)
    (h8 : (natToBytes (lib.pubOf d).1).length =
      (natToBytes (lib.pubOf d).2).length)
    (h9 : ∀ i ∈ List.range tx.Vin.length,
      (natToBytes (rsAt lib ks d prev tx i).1).length =
        (natToBytes (rsAt lib ks d prev tx i).2).length) :
    Verify lib (txAfterSign lib ks d prev tx) prev = .ok true := by
  have hcb : (txAfterSign lib ks d prev tx).IsCoinbase = false := by
    rw [IsCoinbase_txAfterSign]
    exact h1
  have hmem : ∀ vinS ∈ (txAfterSign lib ks d prev tx).Vin,
      ∃ (j : Nat) (vin : TXInput), tx.Vin[j]? = some vin ∧
        vinS = { vin with
          Signature := sigAt lib ks d prev (TrimmedCopy lib tx).1 j } := by
    intro vinS hv
    rcases List.mem_iff_getElem?.mp hv with ⟨j, hj⟩
    rw [txAfterSign_Vin_getElem?] at hj
    rcases Option.map_eq_some'.mp hj with ⟨vin, hvin, hmap⟩
    exact ⟨j, vin, hvin, hmap.symm⟩
  have hany : (txAfterSign lib ks d prev tx).Vin.any
      (fun vin => (lookupTx prev vin.Txid).ID.isEmpty) = false := by
    apply any_missing_false
    intro vinS hv
    rcases hmem vinS hv with ⟨j, vin, hvin, heq⟩
    have : vinS.Txid = vin.Txid := by rw [heq]
    rw [this]
    exact h2 vin (List.getElem?_mem hvin)
  have hunfold : Verify lib (txAfterSign lib ks d prev tx) prev =
      verifyLoop lib prev
        (List.range (txAfterSign lib ks d prev tx).Vin.length)
        (txAfterSign lib ks d prev tx)
        (TrimmedCopy lib (txAfterSign lib ks d prev tx)).1 := by
    simp only [Verify, hcb, hany, Bool.false_eq_true, if_false]
  rw [hunfold, trimBase_txAfterSign lib ks d prev tx h7]
  apply verifyLoop_true
  · exact trimmedState_trimBase lib tx
  · intro i hi vinS hvS
    rw [txAfterSign_Vin_getElem?] at hvS
    rcases Option.map_eq_some'.mp hvS with ⟨vin, hvin, hmap⟩
    have hmemv : vin ∈ tx.Vin := List.getElem?_mem hvin
    rcases Option.isSome_iff_exists.mp (h3 vin hmemv) with ⟨out, hout⟩
    refine ⟨out, ?_, ?_⟩
    · rw [← hmap]
      rw [outRef_setSig]
      exact hout
    · have hvinbase : (TrimmedCopy lib tx).1.Vin[i]? = some (trimInput vin) := by
        rw [trimBase_Vin, List.getElem?_map, hvin]
        rfl
      have houtb : outRef prev (trimInput vin) = some out := by
        rw [outRef_trimInput]
        exact hout
      have hsig : vinS.Signature =
          natToBytes (rsAt lib ks d prev tx i).1 ++
            natToBytes (rsAt lib ks d prev tx i).2 := by
        rw [← hmap]
        show sigAt lib ks d prev (TrimmedCopy lib tx).1 i = _
        exact sigAt_eq_rsAt lib ks d prev tx i (trimInput vin) hvinbase out houtb
      have hrange : i ∈ List.range tx.Vin.length := by
        rw [List.mem_range]
        by_contra hc
        push_neg at hc
        rw [List.getElem?_eq_none hc] at hvin
        exact absurd hvin (by simp)
      have hsplit := split_half_recovers
        (natToBytes (rsAt lib ks d prev tx i).1)
        (natToBytes (rsAt lib ks d prev tx i).2) (h9 i hrange)
      have hr : natSetBytes (vinS.Signature.take (vinS.Signature.length / 2)) =
          (rsAt lib ks d prev tx i).1 := by
        rw [hsig, hsplit.1, natSetBytes_natToBytes]
      have hs : natSetBytes (vinS.Signature.drop (vinS.Signature.length / 2)) =
          (rsAt lib ks d prev tx i).2 := by
        rw [hsig, hsplit.2, natSetBytes_natToBytes]
      have hpk : vinS.PubKey = pubKeyBytes lib d := by
        rw [← hmap]
        show vin.PubKey = pubKeyBytes lib d
        exact h4 vin hmemv
      have hpsplit := split_half_recovers
        (natToBytes (lib.pubOf d).1) (natToBytes (lib.pubOf d).2) h8
      have hx : natSetBytes (vinS.PubKey.take (vinS.PubKey.length / 2)) =
          (lib.pubOf d).1 := by
        rw [hpk]
        show natSetBytes ((pubKeyBytes lib d).take
          ((pubKeyBytes lib d).length / 2)) = _
        rw [pubKeyBytes, hpsplit.1, natSetBytes_natToBytes]
      have hy : natSetBytes (vinS.PubKey.drop (vinS.PubKey.length / 2)) =
          (lib.pubOf d).2 := by
        rw [hpk]
        show natSetBytes ((pubKeyBytes lib d).drop
          ((pubKeyBytes lib d).length / 2)) = _
        rw [pubKeyBytes, hpsplit.2, natSetBytes_natToBytes]
      have hrs : rsAt lib ks d prev tx i =
          lib.ecSign (ks i) d
            (sigMsg lib (TrimmedCopy lib tx).1 i out.PubKeyHash) := by
        simp only [rsAt, hvinbase, houtb]
      rw [hr, hs, hx, hy, hrs]
      rw [show ((lib.pubOf d).1, (lib.pubOf d).2) = lib.pubOf d from rfl]
      rw [show (((lib.ecSign (ks i) d
        (sigMsg lib (TrimmedCopy lib tx).1 i out.PubKeyHash)).1,
          (lib.ecSign (ks i) d
            (sigMsg lib (TrimmedCopy lib tx).1 i out.PubKeyHash)).2)) =
          lib.ecSign (ks i) d
            (sigMsg lib (TrimmedCopy lib tx).1 i out.PubKeyHash) from rfl]
      exact lib.ecSign_correct (ks i) d
        (sigMsg lib (TrimmedCopy lib tx).1 i out.PubKeyHash)

/-! ### Concrete library models used by witnesses and counterexamples -/

/-- `Modelled from the spec:` a concrete stand-in for the absent
`HashPubKey` — a deterministic fixed-length (20-byte) digest of the public
key bytes.  Only determinism and fixed output length are relied on. -/
def modelHashPub (pk : List Nat) : List Nat :=
  pk.foldl (fun a x => (a * 31 + x) % 256) 7 :: List.replicate 19 0

/-- A concrete, well-behaved instantiation of the external libraries:
deterministic encodings, a message- and size-sensitive `fmt` string, and an
ECDSA model whose components are single bytes (so the length-halving scheme
is unambiguous). -/
def modelLib : CryptoLib where
  gobEnc := fun c => List.replicate (c.Vin.length + c.Vout.length + 1) 0
  sha := fun c => c.Vin.length % 256 :: List.replicate 31 0
  rlpLen := fun c => 7 + c.Vin.length + c.Vout.length
  fmtHex := fun tx => (tx.size.getD 255) % 256 :: tx.ID
  ecSign := fun _ _ m => (m.headD 0 % 256 + 2, 7)
  ecVerify := fun _ m rs => rs == (m.headD 0 % 256 + 2, 7)
  pubOf := fun dd => (dd % 100 + 1, dd % 100 + 2)
  hashPub := modelHashPub
  addrOf := modelHashPub
  decodeAddr := fun a => a
  sha_len := by intro c; simp
  ecSign_correct := by intro k dd m; simp
  decodeAddr_addrOf := fun pk => rfl

/-- An equally admissible instantiation in which `ecdsa.Sign` produces a
signature whose first component needs two bytes (`r = 256`) while the
second needs one (`s = 1`) — exactly the variable-length `big.Int.Bytes`
behaviour the real library exhibits for a fraction of signatures. -/
def libBadSig : CryptoLib where
  gobEnc := fun _ => [0]
  sha := fun _ => List.replicate 32 0
  rlpLen := fun _ => 1
  fmtHex := fun _ => []
  ecSign := fun _ _ _ => (256, 1)
  ecVerify := fun _ _ rs => rs == (256, 1)
  pubOf := fun _ => (1, 2)
  hashPub := modelHashPub
  addrOf := modelHashPub
  decodeAddr := fun a => a
  sha_len := by intro c; simp
  ecSign_correct := by intro k dd m; simp
  decodeAddr_addrOf := fun pk => rfl

/-- Deterministic nonce stream for examples. -/
def ksZero : Nat → Nat := fun _ => 0

/-- The example signer's raw public key bytes under `modelLib` (key 5). -/
def exPub : List Nat := pubKeyBytes modelLib 5

/-- A prior transaction holding one output of value 100 owned by the
example key. -/
def exPrevTx : Transaction :=
  ⟨[7], [], [⟨100, modelHashPub exPub⟩], 0, none⟩

/-- The prior-transaction map containing `exPrevTx` under id `[1]`. -/
def exPrev : PrevMap := [(hexEncode [1], exPrevTx)]

/-- An unsigned single-input spend of the 100-valued output; its size cache
holds its serialized length (3), as the constructors establish. -/
def exTx : Transaction :=
  ⟨[9], [⟨[1], 0, [], exPub⟩], [⟨60, [4]⟩], 0, some 3⟩

/-- The same record with a stale size cache (7 instead of 3). -/
def exTxStale : Transaction :=
  ⟨[9], [⟨[1], 0, [], exPub⟩], [⟨60, [4]⟩], 0, some 7⟩

/-- An unsigned single-input spend for the `libBadSig` instantiation (its
key bytes are `[1, 2]`; the serialized length under that instance is 1). -/
def exTxB : Transaction :=
  ⟨[9], [⟨[1], 0, [], [1, 2]⟩], [⟨60, [4]⟩], 0, some 1⟩

/-- Prior map for `exTxB`. -/
def exPrevB : PrevMap :=
  [(hexEncode [1], ⟨[7], [], [⟨100, modelHashPub [1, 2]⟩], 0, none⟩)]

/-- When all references resolve and all output indices are in range,
`Verify` returns a boolean. -/
theorem Verify_ok_of (lib : CryptoLib) (tx : Transaction) (prev : PrevMap)
    (h2 : ∀ vin ∈ tx.Vin, (lookupTx prev vin.Txid).ID ≠ [])
    (h3 : ∀ vin ∈ tx.Vin, (outRef prev vin).isSome) :
    ∃ b, Verify lib tx prev = .ok b := by
  cases hcb : tx.IsCoinbase with
  | true => exact ⟨true, Verify_coinbase lib tx prev hcb⟩
  | false =>
    have hany := any_missing_false prev tx h2
    rcases verifyLoop_ok lib prev (List.range tx.Vin.length) tx
        (TrimmedCopy lib tx).1
        (fun i _ vin hv => h3 vin (List.getElem?_mem hv)) with ⟨b, hb⟩
    refine ⟨b, ?_⟩
    simp only [Verify, hcb, hany, Bool.false_eq_true, if_false]
    exact hb

/-! ### Claim C1 -/

/-- Claim C1 exactly as stated: for every key pair and every non-coinbase
record whose inputs all reference existing outputs owned by the key's
address, carry the key's raw public key and have signatures initially
absent, verifying after signing returns true — with no condition on the
size cache or on the byte lengths of the signature components. -/
def C1Stated : Prop :=
  ∀ (lib : CryptoLib) (ks : Nat → Nat) (d : Nat) (tx : Transaction)
    (prev : PrevMap),
    tx.IsCoinbase = false →
    (∀ vin ∈ tx.Vin, (lookupTx prev vin.Txid).ID ≠ []) →
    (∀ vin ∈ tx.Vin, (outRef prev vin).isSome) →
    (∀ vin ∈ tx.Vin, (outRef prev vin).map TXOutput.PubKeyHash =
      some (lib.hashPub (pubKeyBytes lib d))) →
    (∀ vin ∈ tx.Vin, vin.PubKey = pubKeyBytes lib d) →
    (∀ vin ∈ tx.Vin, vin.Signature = []) →
    ∀ txS, Sign lib ks d tx prev = .ok txS → Verify lib txS prev = .ok true

/-- C1 is false as stated: on a record whose size cache holds a stale value
(7) rather than its serialized length (3), signing embeds the stale cell in
the `%x` data string while verification embeds the refreshed one, so the
signature check fails: `verify(sign(R)) = ok false` at this concrete input
even though every stated hypothesis holds. -/
theorem C1_counterexample : ¬ C1Stated := by
  intro h
  have hs : Sign modelLib ksZero 5 exTxStale exPrev =
      .ok (txAfterSign modelLib ksZero 5 exPrev exTxStale) := by decide
  have hv := h modelLib ksZero 5 exTxStale exPrev (by decide) (by decide)
    (by decide) (by decide) (by decide) (by decide) _ hs
  have hfalse : Verify modelLib (txAfterSign modelLib ksZero 5 exPrev exTxStale)
      exPrev = .ok false := by decide
  rw [hv] at hfalse
  exact absurd hfalse (by decide)

/-- C1 (amended): the sign/verify round trip returns true provided, in
addition, (i) the record's size cache holds its serialized length (as the
constructors establish immediately before signing), (ii) the public key's
two coordinate encodings have equal byte length, and (iii) each produced
signature's two component encodings have equal byte length — the conditions
the stale-cache and variable-length-`Bytes` counterexamples force. -/
theorem C1_roundTrip (lib : CryptoLib) (ks : Nat → Nat) (d : Nat)
    (tx : Transaction) (prev : PrevMap)
    (h1 : tx.IsCoinbase = false)
    (h2 : ∀ vin ∈ tx.Vin, (lookupTx prev vin.Txid).ID ≠ [])
    (h3 : ∀ vin ∈ tx.Vin, (outRef prev vin).isSome)
    (h5 : ∀ vin ∈ tx.Vin, (outRef prev vin).map TXOutput.PubKeyHash =
      some (lib.hashPub (pubKeyBytes lib d)))
    (h4 : ∀ vin ∈ tx.Vin, vin.PubKey = pubKeyBytes lib d)
    (h6 : ∀ vin ∈ tx.Vin, vin.Signature = [])
    (h7 : tx.size = some (Serialize lib tx).length)
    (h8 : (natToBytes (lib.pubOf d).1).length =
      (natToBytes (lib.pubOf d).2).length)
    (h9 : ∀ i ∈ List.range tx.Vin.length,
      (natToBytes (rsAt lib ks d prev tx i).1).length =
        (natToBytes (rsAt lib ks d prev tx i).2).length) :
    Sign lib ks d tx prev = .ok (txAfterSign lib ks d prev tx) ∧
      Verify lib (txAfterSign lib ks d prev tx) prev = .ok true :=
  ⟨Sign_eq lib ks d tx prev h1 h2 h3,
   roundTrip_verify lib ks d tx prev h1 h2 h3 h4 h7 h8 h9⟩

/-- C1 witness: the amended round trip at a concrete key, record and prior
map. -/
theorem C1_witness :
    Sign modelLib ksZero 5 exTx exPrev =
        .ok (txAfterSign modelLib ksZero 5 exPrev exTx) ∧
      Verify modelLib (txAfterSign modelLib ksZero 5 exPrev exTx) exPrev =
        .ok true :=
  C1_roundTrip modelLib ksZero 5 exTx exPrev (by decide) (by decide)
    (by decide) (by decide) (by decide) (by decide) (by decide) (by decide)
    (by decide)

/-! ### Claim C3 -/

/-- Claim C3's propagation clause exactly as stated: failures are surfaced
as explicit error values, never as a process-terminating failure — i.e.
`Verify` never ends in a Go panic. -/
def C3Stated : Prop :=
  ∀ (lib : CryptoLib) (tx : Transaction) (prev : PrevMap) (m : String),
    Verify lib tx prev ≠ .panic m

/-- C3 is false as stated: verifying a non-coinbase record against an empty
prior map runs `log.Panic` — a process-terminating failure, not an error
value (the Go signature of `Verify` has no error result to carry one). -/
theorem C3_counterexample : ¬ C3Stated := by
  intro h
  exact h modelLib exTx [] missingMsg (by decide)

/-- C3 (amended): when a reference is missing, `Sign` and `Verify` fail by
`log.Panic` with the missing-reference message (a process-terminating
failure mode, not a returned error value); when every reference resolves
and every output index is in range, `Verify` never panics — it returns a
boolean, and cryptographic falsity (arbitrary signature or key bytes)
yields `ok false`, not an error. -/
theorem C3_missingRef (lib : CryptoLib) (ks : Nat → Nat) (d : Nat)
    (tx : Transaction) (prev : PrevMap) :
    (tx.IsCoinbase = false →
      (∃ vin ∈ tx.Vin, (lookupTx prev vin.Txid).ID = []) →
      Sign lib ks d tx prev = .panic missingMsg ∧
        Verify lib tx prev = .panic missingMsg) ∧
    ((∀ vin ∈ tx.Vin, (lookupTx prev vin.Txid).ID ≠ []) →
      (∀ vin ∈ tx.Vin, (outRef prev vin).isSome) →
      ∃ b, Verify lib tx prev = .ok b) := by
  constructor
  · intro h1 hex
    exact ⟨Sign_missing lib ks d tx prev h1 hex,
      Verify_missing lib tx prev h1 hex⟩
  · intro h2 h3
    exact Verify_ok_of lib tx prev h2 h3

/-- C3 witness: the missing-reference panic and the boolean return at
concrete inputs. -/
theorem C3_witness :
    Verify modelLib exTx [] = .panic missingMsg ∧
      ∃ b, Verify modelLib exTx exPrev = .ok b :=
  ⟨((C3_missingRef modelLib ksZero 5 exTx []).1 (by decide)
      ⟨⟨[1], 0, [], exPub⟩, by decide, by decide⟩).2,
   (C3_missingRef modelLib ksZero 5 exTx exPrev).2 (by decide) (by decide)⟩

/-! ### Claim C4 -/

/-- Claim C4 exactly as stated: each stored signature is the concatenation
of the two ECDSA components in a consistent fixed width, so that splitting
it at half its byte length always recovers exactly the two components
produced at signing time. -/
def C4Stated : Prop :=
  ∀ (lib : CryptoLib) (ks : Nat → Nat) (d : Nat) (tx : Transaction)
    (prev : PrevMap),
    tx.IsCoinbase = false →
    (∀ vin ∈ tx.Vin, (lookupTx prev vin.Txid).ID ≠ []) →
    (∀ vin ∈ tx.Vin, (outRef prev vin).isSome) →
    ∀ txS, Sign lib ks d tx prev = .ok txS →
    ∀ i ∈ List.range tx.Vin.length, ∀ vinS : TXInput, txS.Vin[i]? = some vinS →
      natSetBytes (vinS.Signature.take (vinS.Signature.length / 2)) =
          (rsAt lib ks d prev tx i).1 ∧
        natSetBytes (vinS.Signature.drop (vinS.Signature.length / 2)) =
          (rsAt lib ks d prev tx i).2

/-- C4 is false as stated: `big.Int.Bytes` is minimal, not fixed-width.
With components `(r, s) = (256, 1)` the stored signature is `[1, 0, 1]`;
splitting at half length (1) recovers `(1, 1)`, not `(256, 1)`. -/
theorem C4_counterexample : ¬ C4Stated := by
  intro h
  have := h libBadSig ksZero 5 exTxB exPrevB (by decide) (by decide)
    (by decide) (txAfterSign libBadSig ksZero 5 exPrevB exTxB) (by decide)
    0 (by decide) ⟨[1], 0, [1, 0, 1], [1, 2]⟩ (by decide)
  exact absurd this.1 (by decide)

/-- C4 (amended): each stored signature is the concatenation of the two
components' minimal (unpadded) big-endian encodings, and the half-length
split recovers exactly the two components whenever those two encodings
happen to have equal length. -/
theorem C4_minimalEnc (lib : CryptoLib) (ks : Nat → Nat) (d : Nat)
    (tx : Transaction) (prev : PrevMap)
    (h1 : tx.IsCoinbase = false)
    (h2 : ∀ vin ∈ tx.Vin, (lookupTx prev vin.Txid).ID ≠ [])
    (h3 : ∀ vin ∈ tx.Vin, (outRef prev vin).isSome) :
    Sign lib ks d tx prev = .ok (txAfterSign lib ks d prev tx) ∧
      ∀ i ∈ List.range tx.Vin.length, ∀ vinS : TXInput,
        (txAfterSign lib ks d prev tx).Vin[i]? = some vinS →
        vinS.Signature = natToBytes (rsAt lib ks d prev tx i).1 ++
            natToBytes (rsAt lib ks d prev tx i).2 ∧
          ((natToBytes (rsAt lib ks d prev tx i).1).length =
              (natToBytes (rsAt lib ks d prev tx i).2).length →
            natSetBytes (vinS.Signature.take (vinS.Signature.length / 2)) =
                (rsAt lib ks d prev tx i).1 ∧
              natSetBytes (vinS.Signature.drop (vinS.Signature.length / 2)) =
                (rsAt lib ks d prev tx i).2) := by
  refine ⟨Sign_eq lib ks d tx prev h1 h2 h3, ?_⟩
  intro i _ vinS hvS
  rw [txAfterSign_Vin_getElem?] at hvS
  rcases Option.map_eq_some'.mp hvS with ⟨vin, hvin, hmap⟩
  have hmemv : vin ∈ tx.Vin := List.getElem?_mem hvin
  rcases Option.isSome_iff_exists.mp (h3 vin hmemv) with ⟨out, hout⟩
  have hvinbase : (TrimmedCopy lib tx).1.Vin[i]? = some (trimInput vin) := by
    rw [trimBase_Vin, List.getElem?_map, hvin]
    rfl
  have houtb : outRef prev (trimInput vin) = some out := by
    rw [outRef_trimInput]
    exact hout
  have hsig : vinS.Signature = natToBytes (rsAt lib ks d prev tx i).1 ++
      natToBytes (rsAt lib ks d prev tx i).2 := by
    rw [← hmap]
    show sigAt lib ks d prev (TrimmedCopy lib tx).1 i = _
    exact sigAt_eq_rsAt lib ks d prev tx i (trimInput vin) hvinbase out houtb
  refine ⟨hsig, fun hlen => ?_⟩
  have hsplit := split_half_recovers (natToBytes (rsAt lib ks d prev tx i).1)
    (natToBytes (rsAt lib ks d prev tx i).2) hlen
  constructor
  · rw [hsig, hsplit.1, natSetBytes_natToBytes]
  · rw [hsig, hsplit.2, natSetBytes_natToBytes]

/-- C4 witness: the amended statement applied at a concrete record whose
signature components are single bytes. -/
theorem C4_witness :
    natSetBytes ((([5, 7] : List Nat)).take (([5, 7] : List Nat).length / 2)) =
        (rsAt modelLib ksZero 5 exPrev exTx 0).1 ∧
      natSetBytes ((([5, 7] : List Nat)).drop (([5, 7] : List Nat).length / 2)) =
        (rsAt modelLib ksZero 5 exPrev exTx 0).2 := by
  have h := C4_minimalEnc modelLib ksZero 5 exTx exPrev (by decide) (by decide)
    (by decide)
  have h2 := (h.2 0 (by decide) ⟨[1], 0, [5, 7], [6, 7]⟩ (by decide)).2 (by decide)
  exact h2

/-! ### Claim C7 -/

/-- C7: `isCoinbase` is true exactly when the record has one single input
with empty previous id and sentinel index −1, and `Verify` returns true on
every coinbase record whatever the supplied prior map contains. -/
theorem C7_coinbase (lib : CryptoLib) (tx : Transaction) (prev : PrevMap) :
    (tx.IsCoinbase = true ↔
      ∃ vin : TXInput, tx.Vin = [vin] ∧ vin.Txid = [] ∧ vin.Vout = -1) ∧
    (tx.IsCoinbase = true → Verify lib tx prev = .ok true) := by
  constructor
  · constructor
    · intro h
      cases htv : tx.Vin with
      | nil => simp [Transaction.IsCoinbase, htv] at h
      | cons a l =>
        cases l with
        | nil =>
          simp [Transaction.IsCoinbase, htv] at h
          exact ⟨a, rfl, by simpa using h.1, h.2⟩
        | cons b l2 => simp [Transaction.IsCoinbase, htv] at h
    · rintro ⟨vin, hv, ht, ho⟩
      simp [Transaction.IsCoinbase, hv, ht, ho]
  · intro h
    exact Verify_coinbase lib tx prev h

/-- A concrete coinbase record. -/
def exCoin : Transaction := ⟨[3], [⟨[], -1, [], [42]⟩], [⟨50, [1]⟩], 0, some 0⟩

/-- C7 witness: the coinbase exemption at a concrete record and a non-empty
prior map. -/
theorem C7_witness :
    Verify modelLib exCoin exPrev = .ok true ∧ exCoin.IsCoinbase = true :=
  ⟨(C7_coinbase modelLib exCoin exPrev).2 (by decide), by decide⟩

/-! ### Claim C10 -/

/-- A record identical to `exTx` except that its single input's output
index (5) is past the end of the referenced transaction's output list. -/
def exTxOOB : Transaction :=
  ⟨[9], [⟨[1], 5, [], exPub⟩], [⟨60, [4]⟩], 0, some 3⟩

/-- C10: `Sign` and `Verify` index the referenced outputs without a bounds
check.  (a) When every reference resolves and every index is in range, both
return normally — the out-of-range branch is unreachable.  (b) When every
reference resolves, neither ever raises the missing-reference panic.
(c) A resolving reference whose index is out of range (here: on the first
input) raises the index panic, which is distinct from the
missing-reference panic. -/
theorem C10_bounds (lib : CryptoLib) (ks : Nat → Nat) (d : Nat)
    (tx : Transaction) (prev : PrevMap) :
    ((∀ vin ∈ tx.Vin, (lookupTx prev vin.Txid).ID ≠ []) →
      (∀ vin ∈ tx.Vin, (outRef prev vin).isSome) →
      (∃ tx2, Sign lib ks d tx prev = .ok tx2) ∧
        ∃ b, Verify lib tx prev = .ok b) ∧
    ((∀ vin ∈ tx.Vin, (lookupTx prev vin.Txid).ID ≠ []) →
      Sign lib ks d tx prev ≠ .panic missingMsg ∧
        Verify lib tx prev ≠ .panic missingMsg) ∧
    (tx.IsCoinbase = false →
      (∀ vin ∈ tx.Vin, (lookupTx prev vin.Txid).ID ≠ []) →
      ∀ vin0 : TXInput, tx.Vin[0]? = some vin0 → outRef prev vin0 = none →
      Sign lib ks d tx prev = .panic idxMsg ∧
        Verify lib tx prev = .panic idxMsg ∧ idxMsg ≠ missingMsg) := by
  refine ⟨?_, ?_, ?_⟩
  · intro h2 h3
    constructor
    · cases hcb : tx.IsCoinbase with
      | true => exact ⟨tx, Sign_coinbase lib ks d tx prev hcb⟩
      | false => exact ⟨_, Sign_eq lib ks d tx prev hcb h2 h3⟩
    · exact Verify_ok_of lib tx prev h2 h3
  · intro h2
    have hany := any_missing_false prev tx h2
    constructor
    · intro heq
      cases hcb : tx.IsCoinbase with
      | true => rw [Sign_coinbase lib ks d tx prev hcb] at heq; exact absurd heq (by simp)
      | false =>
        simp only [Sign, hcb, hany, Bool.false_eq_true, if_false] at heq
        have := signLoop_panic_idx lib ks d prev _ _ _ _ heq
        exact absurd this.symm (by decide)
    · intro heq
      cases hcb : tx.IsCoinbase with
      | true => rw [Verify_coinbase lib tx prev hcb] at heq; exact absurd heq (by simp)
      | false =>
        simp only [Verify, hcb, hany, Bool.false_eq_true, if_false] at heq
        have := verifyLoop_panic_idx lib prev _ _ _ _ heq
        exact absurd this.symm (by decide)
  · intro hcb h2 vin0 hv0 hoob
    have hany := any_missing_false prev tx h2
    have hpos : 0 < tx.Vin.length := by
      by_contra hc
      push_neg at hc
      rw [List.getElem?_eq_none (by omega)] at hv0
      exact absurd hv0 (by simp)
    rcases Nat.exists_eq_succ_of_ne_zero (by omega : tx.Vin.length ≠ 0) with ⟨k, hk⟩
    have hvinbase : (TrimmedCopy lib tx).1.Vin[0]? = some (trimInput vin0) := by
      rw [trimBase_Vin, List.getElem?_map, hv0]
      rfl
    have houtb : outRef prev (trimInput vin0) = none := by
      rw [outRef_trimInput]
      exact hoob
    refine ⟨?_, ?_, by decide⟩
    · have hlenb : (TrimmedCopy lib tx).1.Vin.length = tx.Vin.length := by simp
      simp only [Sign, hcb, hany, Bool.false_eq_true, if_false]
      rw [hlenb, hk, List.range_succ_eq_map]
      simp only [signLoop, hvinbase, houtb]
    · simp only [Verify, hcb, hany, Bool.false_eq_true, if_false]
      rw [hk, List.range_succ_eq_map]
      simp only [verifyLoop, hv0, hoob]

/-- C10 witness: normal return on an in-range record, and the index panic
(not the missing-reference panic) on a resolving but out-of-range input. -/
theorem C10_witness :
    (∃ b, Verify modelLib exTx exPrev = .ok b) ∧
      Verify modelLib exTxOOB exPrev = .panic idxMsg :=
  ⟨((C10_bounds modelLib ksZero 5 exTx exPrev).1 (by decide) (by decide)).2,
   ((C10_bounds modelLib ksZero 5 exTxOOB exPrev).2.2 (by decide) (by decide)
      ⟨[1], 5, [], exPub⟩ (by decide) (by decide)).2.1⟩

/-! ### Frame lemmas for `Sign` -/

/-- The per-input projection untouched by signing. -/
def keyFields (v : TXInput) : List Nat × Int × List Nat :=
  (v.Txid, v.Vout, v.PubKey)

/-- Whenever the signing loop returns normally, the carried transaction has
only had input signatures written: identity, outputs, timestamp, size and
every input's other fields are those of the transaction passed in. -/
theorem signLoop_frame (lib : CryptoLib) (ks : Nat → Nat) (d : Nat)
    (prev : PrevMap) :
    ∀ (is : List Nat) (txCopy tx t : Transaction),
      signLoop lib ks d prev is txCopy tx = .ok t →
      t.ID = tx.ID ∧ t.Vout = tx.Vout ∧ t.Timestamp = tx.Timestamp ∧
        t.size = tx.size ∧
        ∀ j : Nat, (t.Vin[j]?).map keyFields = (tx.Vin[j]?).map keyFields := by
  intro is
  induction is with
  | nil =>
    intro txCopy tx t h
    simp only [signLoop] at h
    cases h
    exact ⟨rfl, rfl, rfl, rfl, fun j => rfl⟩
  | cons i is ih =>
    intro txCopy tx t h
    match hvin : txCopy.Vin[i]? with
    | none =>
      simp only [signLoop, hvin] at h
      exact ih _ _ _ h
    | some vin =>
      match hout : outRef prev vin with
      | none =>
        simp only [signLoop, hvin, hout] at h
        exact absurd h (by simp)
      | some out =>
        simp only [signLoop, hvin, hout] at h
        rcases ih _ _ _ h with ⟨hID, hVout, hTs, hsz, hVin⟩
        refine ⟨by rw [hID]; rfl, by rw [hVout]; rfl, by rw [hTs]; rfl,
          by rw [hsz]; rfl, ?_⟩
        intro j
        rw [hVin j, setVin_Vin_getElem?]
        by_cases hij : i = j
        · subst hij
          cases tx.Vin[i]? with
          | none => simp
          | some v => simp [keyFields]
        · simp [hij]

/-- `Sign` frame property: on any normal return, only input signatures
changed; on coinbase input the record is returned untouched, otherwise the
size cache now holds the unsigned record's serialized length. -/
theorem Sign_frame (lib : CryptoLib) (ks : Nat → Nat) (d : Nat)
    (tx : Transaction) (prev : PrevMap) (txS : Transaction)
    (hok : Sign lib ks d tx prev = .ok txS) :
    txS.ID = tx.ID ∧ txS.Vout = tx.Vout ∧ txS.Timestamp = tx.Timestamp ∧
      (∀ j : Nat, (txS.Vin[j]?).map keyFields = (tx.Vin[j]?).map keyFields) ∧
      (tx.IsCoinbase = true → txS = tx) ∧
      (tx.IsCoinbase = false →
        txS.size = some (Serialize lib tx).length) := by
  cases hcb : tx.IsCoinbase with
  | true =>
    rw [Sign_coinbase lib ks d tx prev hcb] at hok
    cases hok
    exact ⟨rfl, rfl, rfl, fun j => rfl, fun _ => rfl,
      fun h => absurd h (by simp)⟩
  | false =>
    cases hany : tx.Vin.any (fun vin => (lookupTx prev vin.Txid).ID.isEmpty) with
    | true =>
      have : Sign lib ks d tx prev = .panic missingMsg := by
        simp [Sign, hcb, hany]
      rw [this] at hok
      exact absurd hok (by simp)
    | false =>
      have hred : Sign lib ks d tx prev =
          signLoop lib ks d prev
            (List.range (TrimmedCopy lib tx).1.Vin.length)
            (TrimmedCopy lib tx).1 (TrimmedCopy lib tx).2 := by
        simp only [Sign, hcb, hany, Bool.false_eq_true, if_false]
      rw [hred] at hok
      rcases signLoop_frame lib ks d prev _ _ _ _ hok with
        ⟨hID, hVout, hTs, hsz, hVin⟩
      refine ⟨by rw [hID]; rfl, by rw [hVout]; simp, by rw [hTs]; rfl, ?_,
        fun h => absurd h (by simp),
        fun _ => by rw [hsz]; rfl⟩
      intro j
      rw [hVin j]
      rfl

/-! ### Claim C9 -/

/-- Claim C9 exactly as stated, isolated to the clause the code violates:
a successful `Sign` leaves the cached size unchanged (along with identity,
outputs, timestamp and the inputs' other fields). -/
def C9Stated : Prop :=
  ∀ (lib : CryptoLib) (ks : Nat → Nat) (d : Nat) (tx : Transaction)
    (prev : PrevMap) (txS : Transaction),
    tx.IsCoinbase = false → Sign lib ks d tx prev = .ok txS →
    txS.ID = tx.ID ∧ txS.Vout = tx.Vout ∧ txS.Timestamp = tx.Timestamp ∧
      (∀ j : Nat, (txS.Vin[j]?).map keyFields = (tx.Vin[j]?).map keyFields) ∧
      txS.size = tx.size

/-- C9 is false as stated: `TrimmedCopy` executes
`tx.SetSize(uint64(len(tx.Serialize())))` on the receiver, so signing a
record whose cache held a stale 7 leaves it holding the serialized length 3
— the cached size is not left unchanged. -/
theorem C9_counterexample : ¬ C9Stated := by
  intro h
  have hs : Sign modelLib ksZero 5 exTxStale exPrev =
      .ok (txAfterSign modelLib ksZero 5 exPrev exTxStale) := by decide
  have := (h modelLib ksZero 5 exTxStale exPrev _ (by decide) hs).2.2.2.2
  exact absurd this (by decide)

/-- C9 (amended): a successful `Sign` changes only the inputs' signature
fields and the size cache; identity, outputs, timestamp and the inputs'
other fields are unchanged, and on a non-coinbase record the size cache is
overwritten with the unsigned record's serialized length (so it is
unchanged exactly when it already held that length). -/
theorem C9_signFrame (lib : CryptoLib) (ks : Nat → Nat) (d : Nat)
    (tx : Transaction) (prev : PrevMap) (txS : Transaction)
    (hok : Sign lib ks d tx prev = .ok txS) :
    txS.ID = tx.ID ∧ txS.Vout = tx.Vout ∧ txS.Timestamp = tx.Timestamp ∧
      (∀ j : Nat, (txS.Vin[j]?).map keyFields = (tx.Vin[j]?).map keyFields) ∧
      (tx.IsCoinbase = false →
        txS.size = some (Serialize lib tx).length) := by
  rcases Sign_frame lib ks d tx prev txS hok with ⟨a, b, c, e, _, f⟩
  exact ⟨a, b, c, e, f⟩

/-- C9 witness: the amended frame property at a concrete signing. -/
theorem C9_witness :
    (txAfterSign modelLib ksZero 5 exPrev exTx).ID = exTx.ID ∧
      (txAfterSign modelLib ksZero 5 exPrev exTx).size =
        some (Serialize modelLib exTx).length :=
  ⟨(C9_signFrame modelLib ksZero 5 exTx exPrev _ (by decide)).1,
   (C9_signFrame modelLib ksZero 5 exTx exPrev _ (by decide)).2.2.2.2
      (by decide)⟩

/-! ### Claim C2 -/

/-- A non-coinbase record whose single input carries public key `[3, 1, 4]`
and whose first (sole) output is owned by the hash of that very key — a
self-transfer in the sense of the spec. -/
def exTxSelf : Transaction :=
  ⟨[1], [⟨[2], 0, [], [3, 1, 4]⟩], [⟨5, modelHashPub [3, 1, 4]⟩], 0, none⟩

/-- C2 (code-bug evaluation): on a record whose input public key hashes
(under the spec-modelled key hash) to the first output's owner hash — and
is, as for every real key, not byte-equal to that hash — the policy check
returns `true`, although the claim requires `false`.  The code compares the
raw `PubKey` bytes against `PubKeyHash` instead of hashing them, so the
rejection its own comment announces can never fire on real keys. -/
theorem C2_selfTransfer :
    VeryfyFromToAddress exTxSelf = true ∧
      modelHashPub ((exTxSelf.Vin.headD ⟨[], 0, [], []⟩).PubKey) =
        (exTxSelf.Vout.headD ⟨0, []⟩).PubKeyHash ∧
      (exTxSelf.Vin.headD ⟨[], 0, [], []⟩).PubKey ≠
        (exTxSelf.Vout.headD ⟨0, []⟩).PubKeyHash ∧
      exTxSelf.IsCoinbase = false ∧ exTxSelf.Vout ≠ [] := by
  decide

/-! ### Claim C6 -/

/-- C6: the identity hash is the fixed 32-byte digest of the canonical
(gob) encoding with the `ID` field blanked, and it is invariant under any
population of the size cache — storing an arbitrary value, running
`Size` first, or not touching it at all ("recomputation" is the same pure
function application; `Hash` itself copies the record and never mutates
it). -/
theorem C6_identityHash (lib : CryptoLib) (tx : Transaction)
    (s2 : Option Nat) (c : Nat) :
    Hash lib tx = lib.sha (({ tx with ID := [] } : Transaction).content) ∧
      (Hash lib tx).length = 32 ∧
      Hash lib ({ tx with size := s2 } : Transaction) = Hash lib tx ∧
      Hash lib (Size lib tx).2 = Hash lib tx ∧
      Hash lib (tx.SetSize c).2 = Hash lib tx := by
  refine ⟨rfl, lib.sha_len _, rfl, ?_, rfl⟩
  cases h : tx.size with
  | none =>
    rw [show (Size lib tx).2 =
      ({ tx with size := some (lib.rlpLen tx.content) } : Transaction) from by
        simp [Size, h, sizeCompute]]
    rfl
  | some n =>
    by_cases hn : n = 0
    · rw [show (Size lib tx).2 =
        ({ tx with size := some (lib.rlpLen tx.content) } : Transaction) from by
          simp [Size, h, hn, sizeCompute]]
      rfl
    · rw [show (Size lib tx).2 = tx from by simp [Size, h, hn]]

/-! ### Claim C8 -/

/-- Claim C8's compute clause exactly as stated: on a cache miss, `size()`
computes and returns the length of the record's canonical encoding (the
gob serialization with `ID` blanked that `identityHash` consumes). -/
def C8Stated : Prop :=
  ∀ (lib : CryptoLib) (tx : Transaction),
    (∀ n : Nat, tx.size = some n → n ≠ 0 → (Size lib tx).1 = n) ∧
    ((tx.size = none ∨ tx.size = some 0) →
      (Size lib tx).1 =
        (lib.gobEnc (({ tx with ID := [] } : Transaction).content)).length)

/-- The example spend with an unpopulated size cell. -/
def exTxFresh : Transaction :=
  ⟨[9], [⟨[1], 0, [], exPub⟩], [⟨60, [4]⟩], 0, none⟩

/-- C8 is false as stated: on a cache miss `Size` counts the bytes of
`rlp.Encode`, a second encoding distinct from the canonical gob
`Serialize`; under an admissible instantiation of the two external
encoders the two lengths differ (9 versus 3 here), so `size()` does not
return the canonical wire length. -/
theorem C8_counterexample : ¬ C8Stated := by
  intro h
  have := (h modelLib exTxFresh).2 (Or.inl rfl)
  exact absurd this (by decide)

/-- C8 (amended): `size()` returns the cached value whenever a non-zero one
was stored; otherwise it computes the record's RLP byte length — an
encoding distinct from the canonical gob one — stores it, and returns it;
and two successive calls on the same record return identical values. -/
theorem C8_sizeCache (lib : CryptoLib) (tx : Transaction) :
    (∀ n : Nat, tx.size = some n → n ≠ 0 → Size lib tx = (n, tx)) ∧
      ((tx.size = none ∨ tx.size = some 0) →
        Size lib tx = (lib.rlpLen tx.content,
          { tx with size := some (lib.rlpLen tx.content) })) ∧
      (Size lib (Size lib tx).2).1 = (Size lib tx).1 := by
  refine ⟨?_, ?_, ?_⟩
  · intro n h hn
    simp [Size, h, hn]
  · rintro (h | h) <;> simp [Size, h, sizeCompute]
  · cases h : tx.size with
    | none =>
      have h1 : Size lib tx = (lib.rlpLen tx.content,
          { tx with size := some (lib.rlpLen tx.content) }) := by
        simp [Size, h, sizeCompute]
      rw [h1]
      by_cases hc : lib.rlpLen tx.content = 0
      · simp [Size, hc, sizeCompute]
      · simp [Size, hc, sizeCompute]
    | some n =>
      by_cases hn : n = 0
      · subst hn
        have h1 : Size lib tx = (lib.rlpLen tx.content,
            { tx with size := some (lib.rlpLen tx.content) }) := by
          simp [Size, h, sizeCompute]
        rw [h1]
        by_cases hc : lib.rlpLen tx.content = 0
        · simp [Size, hc, sizeCompute]
        · simp [Size, hc, sizeCompute]
      · simp [Size, h, hn]

/-- C8 witness: cache hit, cache-miss computation and idempotence at
concrete records. -/
theorem C8_witness :
    Size modelLib exTx = (3, exTx) ∧
      Size modelLib exTxFresh = (modelLib.rlpLen exTxFresh.content,
        { exTxFresh with size := some (modelLib.rlpLen exTxFresh.content) }) ∧
      (Size modelLib (Size modelLib exTxFresh).2).1 =
        (Size modelLib exTxFresh).1 :=
  ⟨(C8_sizeCache modelLib exTx).1 3 rfl (by decide),
   (C8_sizeCache modelLib exTxFresh).2.1 (Or.inl rfl),
   (C8_sizeCache modelLib exTxFresh).2.2⟩

/-! ### Claim C5 -/

theorem spendInputs_proj (pubKey : List Nat) :
    ∀ vo : List (List Nat × List Int),
      (spendInputs pubKey vo).map keyFields =
        vo.foldr (fun p acc2 => p.2.map (fun o => (p.1, o, pubKey)) ++ acc2) [] := by
  intro vo
  induction vo with
  | nil => rfl
  | cons p ps ih =>
    have hstep : spendInputs pubKey (p :: ps) =
        p.2.map (fun out => (⟨p.1, out, [], pubKey⟩ : TXInput)) ++
          spendInputs pubKey ps := rfl
    rw [hstep, List.map_append, ih, List.map_map]
    rfl

/-- C5: `NewUTXOTransaction` panics with the insufficient-funds message —
before any signing — whenever the selector reported `acc < amount`;
otherwise any normally returned record has one input per selected output
(each carrying the sender's raw public key), a first output of `amount`
locked to the recipient's address hash, and exactly when `acc > amount` a
second change output of `acc − amount` locked to the sender's own key hash
(so 60 against 100 yields outputs 60 and 40, while 150 fails). -/
theorem C5_newSpend (lib : CryptoLib) (ks : Nat → Nat) (d : Nat)
    (pubKey toAddr : List Nat) (amount acc : Int)
    (validOutputs : List (List Nat × List Int)) (now : Int) (prev : PrevMap) :
    (acc < amount →
      NewUTXOTransaction lib ks d pubKey toAddr amount acc validOutputs now
        prev = .panic notEnoughMsg) ∧
    (∀ txR : Transaction,
      NewUTXOTransaction lib ks d pubKey toAddr amount acc validOutputs now
        prev = .ok txR →
      txR.Vin.map keyFields =
        validOutputs.foldr
          (fun p acc2 => p.2.map (fun o => (p.1, o, pubKey)) ++ acc2) [] ∧
      (acc = amount →
        txR.Vout = [⟨amount, lib.decodeAddr toAddr⟩]) ∧
      (acc > amount →
        txR.Vout = [⟨amount, lib.decodeAddr toAddr⟩,
          ⟨acc - amount, lib.hashPub pubKey⟩])) := by
  constructor
  · intro h
    simp [NewUTXOTransaction, h]
  · intro txR hok
    by_cases hlt : acc < amount
    · rw [show NewUTXOTransaction lib ks d pubKey toAddr amount acc
          validOutputs now prev = .panic notEnoughMsg from by
            simp [NewUTXOTransaction, hlt]] at hok
      exact absurd hok (by simp)
    · have hok2 : Sign lib ks d
          (spendDraft lib pubKey toAddr amount acc validOutputs now) prev =
            .ok txR := by
        rw [← hok]
        simp [NewUTXOTransaction, hlt]
      rcases Sign_frame lib ks d _ prev txR hok2 with ⟨_, hVout, _, hVin, _, _⟩
      refine ⟨?_, ?_, ?_⟩
      · have hmapeq : txR.Vin.map keyFields =
            (spendDraft lib pubKey toAddr amount acc validOutputs now).Vin.map
              keyFields := by
          apply List.ext_getElem?
          intro j
          rw [List.getElem?_map, List.getElem?_map, hVin j]
        rw [hmapeq]
        rw [show (spendDraft lib pubKey toAddr amount acc validOutputs
          now).Vin = spendInputs pubKey validOutputs from rfl]
        exact spendInputs_proj pubKey validOutputs
      · intro heq
        rw [hVout]
        rw [show (spendDraft lib pubKey toAddr amount acc validOutputs
          now).Vout = spendOutputs lib pubKey toAddr amount acc from rfl]
        have hng : ¬ acc > amount := by omega
        simp [spendOutputs, hng, NewTXOutput]
      · intro hgt
        rw [hVout]
        rw [show (spendDraft lib pubKey toAddr amount acc validOutputs
          now).Vout = spendOutputs lib pubKey toAddr amount acc from rfl]
        simp [spendOutputs, hgt, NewTXOutput, lib.decodeAddr_addrOf]

/-- C5 witness: the 100-funds scenario — spending 150 fails with the
insufficient-funds panic, spending 60 yields outputs 60 to the recipient
and 40 change locked to the sender's key hash. -/
theorem C5_witness :
    NewUTXOTransaction modelLib ksZero 5 exPub [4] 150 100 [([1], [0])] 0
        exPrev = .panic notEnoughMsg ∧
      (txAfterSign modelLib ksZero 5 exPrev
        (spendDraft modelLib exPub [4] 60 100 [([1], [0])] 0)).Vout =
          [⟨60, [4]⟩, ⟨40, modelHashPub exPub⟩] := by
  constructor
  · exact (C5_newSpend modelLib ksZero 5 exPub [4] 150 100 [([1], [0])] 0
      exPrev).1 (by decide)
  · have h := (C5_newSpend modelLib ksZero 5 exPub [4] 60 100 [([1], [0])] 0
        exPrev).2
      (txAfterSign modelLib ksZero 5 exPrev
        (spendDraft modelLib exPub [4] 60 100 [([1], [0])] 0))
      (by decide)
    have h3 := h.2.2 (by decide)
    rw [h3]
    decide

end Core
